import Mathlib

/-
  Verification development for the `python-tui` repository (src/tui.py and
  friends): a shallow embedding of the line editor, key decoder, history
  ring, command router, completion resolver and renderer arithmetic,
  together with theorems settling the specification claims.

  Python strings are modelled as Lean `String`/`List Char`; Python ints as
  `Int` (or `Nat` where the source guarantees non-negativity); fallible
  code returns `Option`/`Except`.  Side effects that do not influence the
  claims (writing escape codes to stdout) are dropped; every state field a
  claim touches is modelled.
-/

namespace Tui

/-! ### Model of Python `shlex.split` (POSIX mode, `whitespace_split=True`)

Used by `Application.command_args` (src/tui.py line 321).  Returns `none`
when `shlex` raises `ValueError` (unterminated quote / dangling escape).
The lexer is a character-at-a-time automaton: `norm` outside quotes,
`esc` after a backslash outside quotes, `single`/`double` inside quotes,
`descape` after a backslash inside double quotes. -/

inductive LexMode
  | norm | esc | single | double | descape
deriving DecidableEq, Repr

def isShWhitespace (c : Char) : Bool :=
  c == ' ' || c == '\t' || c == '\x0d' || c == '\n'

def shlexAux : List Char → LexMode → Bool → List Char → List String → Option (List String)
  | [], .norm, started, cur, acc =>
      some (acc ++ if started then [String.mk cur] else [])
  | [], _, _, _, _ => none
  | c :: rest, .norm, started, cur, acc =>
      if isShWhitespace c then
        shlexAux rest .norm false [] (acc ++ if started then [String.mk cur] else [])
      else if c == '\'' then shlexAux rest .single true cur acc
      else if c == '"' then shlexAux rest .double true cur acc
      else if c == '\\' then shlexAux rest .esc true cur acc
      else shlexAux rest .norm true (cur ++ [c]) acc
  | c :: rest, .esc, _, cur, acc => shlexAux rest .norm true (cur ++ [c]) acc
  | c :: rest, .single, _, cur, acc =>
      if c == '\'' then shlexAux rest .norm true cur acc
      else shlexAux rest .single true (cur ++ [c]) acc
  | c :: rest, .double, _, cur, acc =>
      if c == '"' then shlexAux rest .norm true cur acc
      else if c == '\\' then shlexAux rest .descape true cur acc
      else shlexAux rest .double true (cur ++ [c]) acc
  | c :: rest, .descape, _, cur, acc =>
      if c == '"' || c == '\\' then shlexAux rest .double true (cur ++ [c]) acc
      else shlexAux rest .double true (cur ++ ['\\', c]) acc

def shlexSplit (s : String) : Option (List String) :=
  shlexAux s.data .norm false [] []

/-! ### Model of Python `shlex.join` / `shlex.quote`

`shlex.join(args)` is `' '.join(shlex.quote(a) for a in args)`;
`shlex.quote` leaves a word untouched iff every character is a letter, a
digit, or one of `_ @ % + = : , .` slash dash; otherwise it wraps the word
in single quotes. -/

def isSafeChar (c : Char) : Bool :=
  c.isAlphanum || c == '_' || c == '@' || c == '%' || c == '+' || c == '=' ||
    c == ':' || c == ',' || c == '.' || c == '/' || c == '-'

def shlexQuote (s : String) : String :=
  if s = "" then "''"
  else if s.data.all isSafeChar then s
  else "'" ++ (s.replace "'" "'\"'\"'") ++ "'"

def shlexJoin (args : List String) : String :=
  String.intercalate " " (args.map shlexQuote)

/-! ### History push (src/tui.py lines 129-131 plus the `deque(maxlen=K)`
from `__init__` line 22)

`appendleft` on a full deque evicts from the right (the oldest entry);
the guard is `if saved_command and (not history or history[0] != saved_command)`. -/

def pushHistory (K : Nat) (hist : List String) (line : String) : List String :=
  if line ≠ "" ∧ hist.head? ≠ some line then (line :: hist).take K else hist

/-! ### Application editing state (src/tui.py, class `Application`)

`cursor_index` is a Python int and can transiently leave `[0, length]`
inside a handler (e.g. `on_left` at 0); `on_keypress` clamps it at the end
(lines 233-236).  Message/rendering output does not feed back into this
state and is omitted here. -/

structure AppState where
  command_keys : List Char
  cursor_index : Int
  command_history : List String
  command_index : Nat
deriving DecidableEq, Repr

/-- Initial editor state from `Application.__init__` (lines 19-30). -/
def initApp : AppState :=
  { command_keys := [], cursor_index := 0, command_history := [], command_index := 0 }

/-- The key events named by the spec's dispatch claims. -/
inductive Key
  | printable (c : Char)
  | enter | backspace | delete | left | right
  | home | endKey | up | down | escape

/-- `Application.on_backspace` (lines 136-140). -/
def onBackspace (st : AppState) : AppState :=
  if st.cursor_index = 0 then st
  else
    { st with
      command_keys := st.command_keys.eraseIdx (st.cursor_index - 1).toNat,
      cursor_index := st.cursor_index - 1 }

/-- `Application.on_delete` (lines 142-144): note the guard is
`cursor_index < len(command_keys) - 1`, as written in the source. -/
def onDelete (st : AppState) : AppState :=
  if st.cursor_index < (st.command_keys.length : Int) - 1 then
    { st with command_keys := st.command_keys.eraseIdx st.cursor_index.toNat }
  else st

/-- `Application.on_escape` (lines 146-149). -/
def onEscape (st : AppState) : AppState :=
  { st with command_keys := [], cursor_index := 0, command_index := 0 }

/-- `Application.on_left` (lines 151-152): unconditional decrement. -/
def onLeft (st : AppState) : AppState :=
  { st with cursor_index := st.cursor_index - 1 }

/-- `Application.on_right` (lines 154-155): unconditional increment. -/
def onRight (st : AppState) : AppState :=
  { st with cursor_index := st.cursor_index + 1 }

/-- `Application.on_home` (lines 177-178). -/
def onHome (st : AppState) : AppState :=
  { st with cursor_index := 0 }

/-- `Application.on_end` (lines 180-181). -/
def onEnd (st : AppState) : AppState :=
  { st with cursor_index := (st.command_keys.length : Int) }

/-- `Application.on_up` (lines 157-162). -/
def onUp (st : AppState) : AppState :=
  if st.command_history = [] ∨ st.command_index = st.command_history.length then st
  else
    let keys := (st.command_history.getD ((st.command_index + 1) - 1) "").data
    { st with
      command_index := st.command_index + 1,
      command_keys := keys,
      cursor_index := (keys.length : Int) }

/-- `Application.on_down` (lines 164-172). -/
def onDown (st : AppState) : AppState :=
  if st.command_history = [] ∨ st.command_index = 0 then st
  else
    let idx := st.command_index - 1
    let keys := if idx = 0 then [] else (st.command_history.getD (idx - 1) "").data
    { st with command_index := idx, command_keys := keys, cursor_index := (keys.length : Int) }

/-- `Application.on_printable` (lines 238-240). -/
def onPrintable (st : AppState) (c : Char) : AppState :=
  { st with
    command_keys := st.command_keys.insertIdx st.cursor_index.toNat c,
    cursor_index := st.cursor_index + 1 }

/-- `Application.on_enter` (lines 116-134), projected onto `AppState`:
on a tokenize error the command line is cleared and nothing is saved;
otherwise the `shlex.join`-normalized line is pushed into the history
and the line, history browse index and cursor are reset.  The capacity
`K` is `command_history`'s deque maxlen. -/
def onEnter (K : Nat) (st : AppState) : AppState :=
  match shlexSplit (String.mk st.command_keys) with
  | none => { st with command_keys := [] }
  | some args =>
      { st with
        command_history := pushHistory K st.command_history (shlexJoin args),
        command_keys := [],
        command_index := 0,
        cursor_index := 0 }

/-- Dispatch table of `Application.on_keypress` (lines 186-231) restricted
to the events the claims name. -/
def handleKey (K : Nat) (st : AppState) : Key → AppState
  | .enter => onEnter K st
  | .backspace => onBackspace st
  | .delete => onDelete st
  | .left => onLeft st
  | .right => onRight st
  | .up => onUp st
  | .down => onDown st
  | .home => onHome st
  | .endKey => onEnd st
  | .escape => onEscape st
  | .printable c => onPrintable st c

/-- The cursor clamp at the end of `Application.on_keypress` (lines 232-236). -/
def boundCursor (st : AppState) : AppState :=
  if st.cursor_index < 0 then { st with cursor_index := 0 }
  else if st.cursor_index > (st.command_keys.length : Int) then
    { st with cursor_index := (st.command_keys.length : Int) }
  else st

/-- `Application.on_keypress` for the claimed events: handler, then clamp. -/
def onKeypress (K : Nat) (st : AppState) (k : Key) : AppState :=
  boundCursor (handleKey K st k)

/-! ### Key decoder (src/tui.py, `Application.getkey`, lines 78-114)

The byte stream is modelled as a list of characters; a blocking
`sys.stdin.read(1)` at end of stream returns the empty string, a
non-blocking read returns nothing when no byte is immediately available.
`queued_keys` is the one-slot pushback list (`list.pop()` takes the last
element, `append` adds at the end).  The Python method returns either a
key string or `None`; we return `Option String`. -/

/-- Modelled from the spec: the escape byte constant `ESCAPE_KEY` used by
`Application.getkey` is not defined in src/ansi.py; §4.1 names it as the
escape byte 0x1B. -/
def ESCAPE_KEY : Char := '\x1B'

/-- Modelled from the spec: the CSI final-byte table `ANSI_CONTROL_SEQUENCES`
used by `Application.getkey` is not defined in src/ansi.py; §4.1 gives
`A`→Up, `B`→Down, `C`→Right, `D`→Left, `H`→Home, `F`→End and the
multi-byte forms `2~`/`3~`/`5~`/`6~`→Insert/Delete/PageUp/PageDown (whose
trailing `~` is flushed by the drain loop).  Values are the key names
`Application.on_keypress` dispatches on. -/
def ANSI_CONTROL_SEQUENCES : List (Char × String) :=
  [('A', "UP"), ('B', "DOWN"), ('C', "RIGHT"), ('D', "LEFT"),
   ('H', "HOME"), ('F', "END"),
   ('2', "INSERT"), ('3', "DELETE"), ('5', "PAGE UP"), ('6', "PAGE DOWN")]

structure KeyIO where
  queued_keys : List Char
  stdin : List Char
deriving DecidableEq, Repr

/-- `Application.getkey` (lines 78-114) over the modelled byte stream. -/
def getkey (st : KeyIO) : Option String × KeyIO :=
  match st.queued_keys.getLast? with
  | some k => getkeyWith k { st with queued_keys := st.queued_keys.dropLast }
  | none =>
      match st.stdin with
      | [] => (some "", st)
      | c :: rest => getkeyWith c { st with stdin := rest }
where
  getkeyWith (key : Char) (st : KeyIO) : Option String × KeyIO :=
    if key = ESCAPE_KEY then
      match st.stdin with
      | [] => (some "ESCAPE", st)
      | c :: rest =>
          if c = '[' then
            match rest with
            | [] => (none, { st with stdin := [] })
            | d :: rest2 =>
                match ANSI_CONTROL_SEQUENCES.lookup d with
                | none => (none, { st with stdin := rest2 })
                | some name => (some name, { st with stdin := [] })
          else (some "ESCAPE", { st with stdin := rest, queued_keys := st.queued_keys ++ [c] })
    else (some (String.mk [key]), st)

/-! ### Command-name resolution (src/tui.py, `Interpreter.on_command`,
lines 548-565) -/

inductive ResolveResult
  | resolved (name : String)
  | unrecognized (name : String)
  | ambiguous (candidates : List String)
deriving DecidableEq, Repr

/-- Python `c.startswith(pre)` on modelled strings. -/
def strStartsWith (c pre : String) : Bool :=
  c.data.take pre.data.length == pre.data

/-- Name resolution of `Interpreter.on_command`: exact dict hit first,
otherwise (when `allow_abbreviations`) the keys having `command` as a
string prefix decide between resolved / unrecognized-command error /
ambiguous-command error. -/
def resolveCommand (keys : List String) (allowAbbreviations : Bool) (command : String) :
    ResolveResult :=
  if command ∈ keys then .resolved command
  else if allowAbbreviations then
    match keys.filter (fun c => strStartsWith c command) with
    | [] => .unrecognized command
    | [m] => .resolved m
    | ms => .ambiguous ms
  else .unrecognized command

/-! ### Argument schemas and validation (src/tui.py, `LocalCommand` and
`Interpreter.on_command` lines 567-574; src/parser.py)

`LocalCommand.add_argument` registers a positional with
`nargs = None if required else '?'` (and strips callable choice providers
out of the static `choices`).  `Parser` is `argparse.ArgumentParser` whose
`error` raises `ArgumentError`; for a sequence of `nargs=None` positionals
followed by `nargs='?'` positionals, `parse_args` consumes tokens left to
right, checks static choice membership on each consumed value, errors on a
missing required argument, and errors on leftover tokens. -/

structure Action where
  dest : String
  nargs : Option String
  choices : Option (List String)
deriving DecidableEq, Repr

/-- The `parser.add_argument(name, nargs=(None if required else '?'),
choices=choices, ...)` call in `LocalCommand.add_argument` (lines 432-437). -/
def mkAction (name : String) (required : Bool) (choices : Option (List String)) : Action :=
  { dest := name, nargs := if required then none else some "?", choices := choices }

/-- `LocalCommand.argument_string` (lines 443-455). -/
def argumentString (actions : List Action) : String :=
  String.intercalate " " (actions.map fun a =>
    if a.nargs = some "?" then "[" ++ a.dest ++ "]"
    else if a.nargs = some "*" then "[" ++ a.dest ++ " ...]"
    else if a.nargs = some "+" then "<" ++ a.dest ++ " ...>"
    else "<" ++ a.dest ++ ">")

/-- `LocalCommand.usage` (lines 457-459). -/
def usageString (name : String) (actions : List Action) : String :=
  name ++ " " ++ argumentString actions

def parseArgsAux : List Action → List String → List (String × Option String) →
    Except String (List (String × Option String))
  | [], [], acc => .ok acc
  | [], extra :: more, _ =>
      .error ("unrecognized arguments: " ++ String.intercalate " " (extra :: more))
  | a :: rest, [], acc =>
      if a.nargs = some "?" then parseArgsAux rest [] (acc ++ [(a.dest, none)])
      else .error ("the following arguments are required: " ++ a.dest)
  | a :: rest, t :: ts, acc =>
      match a.choices with
      | some cs =>
          if t ∈ cs then parseArgsAux rest ts (acc ++ [(a.dest, some t)])
          else .error ("argument " ++ a.dest ++ ": invalid choice: " ++ t)
      | none => parseArgsAux rest ts (acc ++ [(a.dest, some t)])

/-- `command.parser.parse_args(args)` for the positional-only schemas the
application builds. -/
def parseArgs (actions : List Action) (args : List String) :
    Except String (List (String × Option String)) :=
  parseArgsAux actions args []

/-- Whether `parse_args` raises `ArgumentError`. -/
def parseFails (actions : List Action) (args : List String) : Bool :=
  match parseArgs actions args with
  | .error _ => true
  | .ok _ => false

inductive DispatchResult
  | called (values : List (String × Option String))
  | usage (usageLine : String) (errorDetail : String)
deriving DecidableEq, Repr

/-- The dispatch tail of `Interpreter.on_command` (lines 567-574): run the
parser; on success invoke the callback on the parsed values, on
`ArgumentError` print the usage line plus the error detail instead. -/
def dispatchCommand (name : String) (actions : List Action) (args : List String) :
    DispatchResult :=
  match parseArgs actions args with
  | .ok vals => .called vals
  | .error e => .usage (usageString name actions) e

/-! ### Renderer arithmetic (src/tui.py, `Application.count_lines` line 334
and the padding write in `render_messages` line 372) -/

/-- Number of spaces written by `printf(' ' * (self.columns - columns_written
% self.columns))` at line 372. -/
def padCount (columns count : Nat) : Nat :=
  columns - count % columns

/-- `Application.count_lines` (line 334): `max(ceil(count / columns), 1)`. -/
def countLines (columns count : Nat) : Nat :=
  max ((count + columns - 1) / columns) 1

/-! ### Message construction (src/tui.py, `Application.print` lines 45-62,
`construct_tuple`/`construct_string` lines 336-343, `translation_table`
line 17)

`translation_table` maps tab and newline each to a single space; every
stored segment text (and attribute) passes through `construct_string`. -/

/-- `str.maketrans('\t\n', '  ')` as a character map. -/
def translationTable (c : Char) : Char :=
  if c = '\t' ∨ c = '\n' then ' ' else c

/-- `Application.construct_string` (lines 342-343): `str.translate` with a
one-to-one table is a character map. -/
def constructString (value : String) : String :=
  String.mk (value.data.map translationTable)

/-- A `print` part: either a `(text, attributes)` pair or any other value,
stringified. -/
inductive PartInput
  | plain (s : String)
  | styled (text : String) (attributes : String)

/-- `Application.construct_tuple` (lines 336-340). -/
def constructTuple : PartInput → String × Option String
  | .styled t a => (constructString t, some (constructString a))
  | .plain s => (constructString s, none)

/-- The assembly loop of `Application.print` (lines 50-55): parts
interleaved with the constructed separator. -/
def interleaveParts (sepT : String × Option String) :
    List PartInput → List (String × Option String)
  | [] => []
  | [p] => [constructTuple p]
  | p :: q :: rest => constructTuple p :: sepT :: interleaveParts sepT (q :: rest)

/-- The full message appended to `self.messages` by `Application.print`
(lines 45-58): interleaved parts followed by the constructed end string. -/
def assembleMessage (parts : List PartInput) (sep e : PartInput) :
    List (String × Option String) :=
  interleaveParts (constructTuple sep) parts ++ [constructTuple e]

/-- Decidable "contains no tab and no newline". -/
def noTabNewline (s : String) : Bool :=
  s.data.all (fun c => c != '\t' && c != '\n')

/-! ### Completion resolver (src/tui.py, `Interpreter.on_tab` lines 576-647,
`command_complete` lines 541-546, `has_trailing_space` lines 523-527,
`argument_index` lines 529-538)

Dynamic choice providers (`LocalCommand.parameter_domains`) are functions
evaluated at call time; a `LocalCommand` is modelled with its name,
parameter actions and provider table.  `on_tab` both mutates the editor
state (`command_keys`, `cursor_index`) and may print one message; the
result pairs the new editor state with the optionally printed string
(`print(*xs, sep='  ')` shown as the `'  '`-joined text). -/

structure EditorState where
  keys : List Char
  cursor : Int
deriving DecidableEq, Repr

structure CmdModel where
  name : String
  parameters : List Action
  parameterDomains : List (String × (Unit → List String))

inductive MatchResult
  | one (m : String)
  | many (ms : List String)
deriving DecidableEq, Repr

/-- `Interpreter.command_complete` (lines 541-546): the prefix matches,
returned as the single match when there is exactly one and as the whole
list otherwise. -/
def commandComplete (command : String) (commands : List String) : MatchResult :=
  match commands.filter (fun c => strStartsWith c command) with
  | [m] => .one m
  | ms => .many ms

/-- `Interpreter.has_trailing_space` (lines 523-527). -/
def hasTrailingSpace (keys : List Char) : Bool :=
  match keys.getLast? with
  | some c => c.isWhitespace
  | none => false

/-- `Interpreter.argument_index` (lines 529-538); `args` is the token list
after the command name has been split off. -/
def argumentIndex (keys : List Char) (args : List String) : Nat :=
  if args = [] then 0
  else (args.length - 1) + (if hasTrailingSpace keys then 1 else 0)

def usageOf (c : CmdModel) : String :=
  c.name ++ " " ++ argumentString c.parameters

def lookupCmd (table : List (String × CmdModel)) (n : String) : Option CmdModel :=
  (table.find? (fun p => p.1 == n)).map (·.2)

/-- `Interpreter.on_tab` (lines 576-647).  `st` is the live editor state
(`command_keys`, `cursor_index`), `args` the token list `on_keypress`
computed from it; `command_args` re-splits `st.keys` exactly as the
`self.command_args` property does.  Python truthiness is modelled
explicitly: `if action.choices:` and `if domain:` are false for both
`None` and an empty list. -/
def onTab (table : List (String × CmdModel)) (st : EditorState) (args : List String) :
    EditorState × Option String :=
  match args with
  | [] => (st, some (String.intercalate "  " (table.map (·.1))))
  | command :: rest =>
      match lookupCmd table command with
      | none =>
          if rest = [] then
            match commandComplete command (table.map (·.1)) with
            | .many ms => (st, some (String.intercalate "  " ms))
            | .one m =>
                let keys := (m ++ " ").data
                ({ keys := keys, cursor := (keys.length : Int) }, none)
          else (st, none)
      | some cmd =>
          if cmd.parameters = [] then (st, none)
          else if cmd.parameters.length ≤ argumentIndex st.keys rest then
            (st, some (usageOf cmd))
          else
            let action := cmd.parameters.getD (argumentIndex st.keys rest)
              { dest := "", nargs := none, choices := none }
            let arg := if rest ≠ [] ∧ ¬ hasTrailingSpace st.keys then rest.getLastD "" else ""
            let domain : List String :=
              match action.choices with
              | some (c0 :: cs) => c0 :: cs
              | _ =>
                  match (cmd.parameterDomains.find? (fun p => p.1 == action.dest)).map (·.2) with
                  | some f => f ()
                  | none => []
            match domain with
            | [] => (st, some (usageOf cmd))
            | d0 :: ds =>
                match commandComplete arg (d0 :: ds) with
                | .many ms => (st, some (String.intercalate "  " ms))
                | .one m =>
                    if hasTrailingSpace st.keys then
                      let newArgs := ((shlexSplit (String.mk st.keys)).getD []) ++ [m]
                      ({ keys := (shlexJoin newArgs).data, cursor := st.cursor }, none)
                    else
                      let as := (shlexSplit (String.mk st.keys)).getD []
                      let newArgs := as.dropLast ++ [m]
                      let keys := (shlexJoin newArgs).data
                      ({ keys := keys, cursor := (keys.length : Int) }, none)

/-! The concrete scenario of claim C8: a table holding `help` and `exit`,
where `help`'s single optional parameter `command` has a dynamic choice
provider returning the current command names (here `help` and `exit`),
exactly as `Interpreter.add_default_commands` wires it (lines 470-482). -/

def helpAction : Action := { dest := "command", nargs := some "?", choices := none }

def helpCmdModel : CmdModel :=
  { name := "help",
    parameters := [helpAction],
    parameterDomains := [("command", fun _ => ["help", "exit"])] }

def exitCmdModel : CmdModel :=
  { name := "exit", parameters := [], parameterDomains := [] }

def scenarioTable : List (String × CmdModel) :=
  [("help", helpCmdModel), ("exit", exitCmdModel)]

/-! ## Theorems -/

/-- The clamp at the end of `on_keypress` leaves the cursor inside
`[0, length]` whatever state the handler produced. -/
theorem boundCursor_bounds (st : AppState) :
    0 ≤ (boundCursor st).cursor_index ∧
    (boundCursor st).cursor_index ≤ ((boundCursor st).command_keys.length : Int) := by
  unfold boundCursor
  split
  · exact ⟨le_refl 0, Int.natCast_nonneg _⟩
  · split
    · exact ⟨Int.natCast_nonneg _, le_refl _⟩
    · omega

/-- C1: for every sequence of key events processed through the
`on_keypress` entry point (printable inserts, backspace, delete, left,
right, home, end, up, down, escape, enter), after each event completes
the cursor index satisfies `0 ≤ cursor_index ≤ length of the buffer`:
starting from the initial application state, the state reached after any
prefix of events followed by one more event is in range. -/
theorem c1_cursor_in_range (K : Nat) (evs : List Key) (k : Key) :
    0 ≤ (onKeypress K (evs.foldl (onKeypress K) initApp) k).cursor_index ∧
    (onKeypress K (evs.foldl (onKeypress K) initApp) k).cursor_index ≤
      ((onKeypress K (evs.foldl (onKeypress K) initApp) k).command_keys.length : Int) :=
  boundCursor_bounds _

/-- C2: evaluation of `on_delete` at the failing input.  With the buffer
`"ab"` and the cursor at index 1 (strictly before the end, on the last
character), the Delete handler leaves the buffer unchanged, because its
guard is `cursor_index < len(command_keys) - 1`; forward delete at the
second-to-last position (cursor 0) does remove the character under the
cursor. -/
theorem c2_forward_delete_eval :
    onDelete { command_keys := ['a', 'b'], cursor_index := 1,
               command_history := [], command_index := 0 } =
      { command_keys := ['a', 'b'], cursor_index := 1,
        command_history := [], command_index := 0 } ∧
    onDelete { command_keys := ['a', 'b'], cursor_index := 0,
               command_history := [], command_index := 0 } =
      { command_keys := ['b'], cursor_index := 0,
        command_history := [], command_index := 0 } := by
  decide

/-- C3 (amended): feeding the decoder `[0x1B, '[', 'A']` with no further
bytes yields exactly one event, the Up key, with the pushback queue and
the input both empty, so the next read starts fresh; in the CSI state a
final byte absent from the lookup table yields a no-event result (`None`)
with the trailing bytes left unconsumed in the input (the drain loop runs
only on a successful table match). -/
theorem c3_csi_decode :
    getkey { queued_keys := [], stdin := ['\x1B', '[', 'A'] } =
      (some "UP", { queued_keys := [], stdin := [] }) ∧
    getkey { queued_keys := [], stdin := ['\x1B', '[', 'X', '~'] } =
      (none, { queued_keys := [], stdin := ['~'] }) := by
  decide

/-- C3 counterexample: after decoding `[0x1B, '[', 'X', '~']`, where `X`
is not in the lookup table, the trailing `~` is still queued in the
input, refuting the claim that a non-matching final byte is drained of
trailing bytes. -/
theorem c3_counterexample :
    (getkey { queued_keys := [], stdin := ['\x1B', '[', 'X', '~'] }).2.stdin ≠ [] := by
  decide

/-- C4: resolution of the first submitted token in `Interpreter.on_command`:
an exact key match resolves to that command; otherwise with abbreviation
matching enabled, zero prefix matches yield the unrecognized-command
error, exactly one prefix match resolves to that command, and two or more
yield the ambiguous-command error carrying the candidate list; with
abbreviation matching disabled, any non-exact token yields the
unrecognized-command error. -/
theorem c4_name_resolution (keys : List String) (ab : Bool) (command : String) :
    (command ∈ keys → resolveCommand keys ab command = .resolved command) ∧
    (command ∉ keys → ab = true →
      (keys.filter (fun c => strStartsWith c command) = [] →
        resolveCommand keys ab command = .unrecognized command) ∧
      (∀ m, keys.filter (fun c => strStartsWith c command) = [m] →
        resolveCommand keys ab command = .resolved m) ∧
      (∀ m1 m2 ms, keys.filter (fun c => strStartsWith c command) = m1 :: m2 :: ms →
        resolveCommand keys ab command = .ambiguous (m1 :: m2 :: ms))) ∧
    (command ∉ keys → ab = false → resolveCommand keys ab command = .unrecognized command) := by
  refine ⟨fun h => by simp [resolveCommand, h], fun h hab => ⟨?_, ?_, ?_⟩, fun h hab => ?_⟩
  · intro hf
    simp [resolveCommand, h, hab, hf]
  · intro m hf
    simp [resolveCommand, h, hab, hf]
  · intro m1 m2 ms hf
    simp [resolveCommand, h, hab, hf]
  · simp [resolveCommand, h, hab]

/-- C4 witness: the spec's own scenario, a table with `help` and `halt`:
`he` resolves to `help`, `h` is ambiguous over both, a non-matching token
is unrecognized, and with abbreviations disabled `he` is unrecognized
while the exact token `help` still resolves. -/
theorem c4_witness :
    resolveCommand ["help", "halt"] true "he" = ResolveResult.resolved "help" ∧
    resolveCommand ["help", "halt"] true "h" = ResolveResult.ambiguous ["help", "halt"] ∧
    resolveCommand ["help", "halt"] true "xq" = ResolveResult.unrecognized "xq" ∧
    resolveCommand ["help", "halt"] false "he" = ResolveResult.unrecognized "he" ∧
    resolveCommand ["help", "halt"] false "help" = ResolveResult.resolved "help" :=
  ⟨((c4_name_resolution ["help", "halt"] true "he").2.1 (by decide) rfl).2.1 "help" (by decide),
   ((c4_name_resolution ["help", "halt"] true "h").2.1 (by decide) rfl).2.2 "help" "halt" []
     (by decide),
   ((c4_name_resolution ["help", "halt"] true "xq").2.1 (by decide) rfl).1 (by decide),
   (c4_name_resolution ["help", "halt"] false "he").2.2 (by decide) rfl,
   (c4_name_resolution ["help", "halt"] false "help").1 (by decide)⟩

/-- Number of required parameters in a schema (those whose `nargs` is not
the optional marker `'?'`). -/
def requiredCount (actions : List Action) : Nat :=
  (actions.filter fun a => a.nargs != some "?").length

/-- More tokens than declared parameters always fail validation. -/
theorem parseArgsAux_too_many (actions : List Action) (args : List String)
    (acc : List (String × Option String)) (h : actions.length < args.length) :
    ∃ e, parseArgsAux actions args acc = .error e := by
  induction actions generalizing args acc with
  | nil =>
    cases args with
    | nil => simp at h
    | cons t ts => exact ⟨_, rfl⟩
  | cons a rest ih =>
    cases args with
    | nil => simp at h
    | cons t ts =>
      simp only [parseArgsAux]
      cases hc : a.choices with
      | none => exact ih ts _ (by simpa using h)
      | some cs =>
        by_cases ht : t ∈ cs
        · simpa [ht] using ih ts _ (by simpa using h)
        · exact ⟨"argument " ++ a.dest ++ ": invalid choice: " ++ t, by simp [ht]⟩

/-- Fewer tokens than required parameters always fail validation. -/
theorem parseArgsAux_too_few (actions : List Action) (args : List String)
    (acc : List (String × Option String)) (h : args.length < requiredCount actions) :
    ∃ e, parseArgsAux actions args acc = .error e := by
  induction actions generalizing args acc with
  | nil => simp [requiredCount] at h
  | cons a rest ih =>
    cases args with
    | nil =>
      simp only [parseArgsAux]
      by_cases hq : a.nargs = some "?"
      · refine (if_pos hq) ▸ ih [] _ ?_
        simpa [requiredCount, hq] using h
      · exact ⟨_, if_neg hq⟩
    | cons t ts =>
      have hrest : ts.length < requiredCount rest := by
        by_cases hq : a.nargs = some "?" <;>
          simp [requiredCount, List.filter_cons, hq] at h ⊢ <;> omega
      simp only [parseArgsAux]
      cases hc : a.choices with
      | none => exact ih ts _ hrest
      | some cs =>
        by_cases ht : t ∈ cs
        · simpa [ht] using ih ts _ hrest
        · exact ⟨"argument " ++ a.dest ++ ": invalid choice: " ++ t, by simp [ht]⟩

/-- Rendering of a schema built through `add_argument`: each required
parameter shows as `<name>`, each optional one as `[name]`. -/
theorem argumentString_mkAction (specs : List (String × Bool × Option (List String))) :
    argumentString (specs.map fun s => mkAction s.1 s.2.1 s.2.2) =
      String.intercalate " " (specs.map fun s =>
        if s.2.1 then "<" ++ s.1 ++ ">" else "[" ++ s.1 ++ "]") := by
  unfold argumentString
  congr 1
  induction specs with
  | nil => rfl
  | cons s rest ih =>
    obtain ⟨n, r, c⟩ := s
    cases r <;> simp [mkAction, ih]

/-- C5: whenever validation of the submitted arguments against the
resolved command's parameter list fails (`parse_args` raises), the
callback is not invoked — the dispatch produces the usage line plus the
error detail instead — and the usage line renders every required
parameter as `<name>` and every optional one as `[name]`; too many
tokens, too few tokens for the required parameters, and a value outside a
static choice set each fail validation. -/
theorem c5_validation_failure (name : String)
    (specs : List (String × Bool × Option (List String))) (args : List String) (e : String)
    (h : parseArgs (specs.map fun s => mkAction s.1 s.2.1 s.2.2) args = .error e) :
    dispatchCommand name (specs.map fun s => mkAction s.1 s.2.1 s.2.2) args =
      .usage (usageString name (specs.map fun s => mkAction s.1 s.2.1 s.2.2)) e ∧
    argumentString (specs.map fun s => mkAction s.1 s.2.1 s.2.2) =
      String.intercalate " " (specs.map fun s =>
        if s.2.1 then "<" ++ s.1 ++ ">" else "[" ++ s.1 ++ "]") ∧
    (∀ args2 : List String,
      (specs.map fun s => mkAction s.1 s.2.1 s.2.2).length < args2.length →
      parseFails (specs.map fun s => mkAction s.1 s.2.1 s.2.2) args2 = true) ∧
    (∀ args2 : List String,
      args2.length < requiredCount (specs.map fun s => mkAction s.1 s.2.1 s.2.2) →
      parseFails (specs.map fun s => mkAction s.1 s.2.1 s.2.2) args2 = true) ∧
    (∀ (n t : String) (cs ts : List String) (rest : List Action), t ∉ cs →
      parseFails (mkAction n true (some cs) :: rest) (t :: ts) = true) := by
  refine ⟨?_, argumentString_mkAction specs, ?_, ?_, ?_⟩
  · simp [dispatchCommand, h]
  · intro args2 h2
    obtain ⟨e2, he2⟩ := parseArgsAux_too_many _ args2 [] h2
    simp [parseFails, parseArgs, he2]
  · intro args2 h2
    obtain ⟨e2, he2⟩ := parseArgsAux_too_few _ args2 [] h2
    simp [parseFails, parseArgs, he2]
  · intro n t cs ts rest ht
    simp [parseFails, parseArgs, parseArgsAux, mkAction, ht]

/-- C5 witness: `cmd` with required `x` and optional `y`; submitting no
arguments fails and produces the usage line `cmd <x> [y]`, three tokens
are too many, and a value outside a static choice set fails. -/
theorem c5_witness :
    dispatchCommand "cmd" [mkAction "x" true none, mkAction "y" false none] [] =
      DispatchResult.usage "cmd <x> [y]" "the following arguments are required: x" ∧
    argumentString [mkAction "x" true none, mkAction "y" false none] = "<x> [y]" ∧
    parseFails [mkAction "x" true none, mkAction "y" false none] ["a", "b", "c"] = true ∧
    parseFails [mkAction "x" true (some ["a", "b"])] ["c"] = true := by
  have h := c5_validation_failure "cmd" [("x", true, none), ("y", false, none)] []
    "the following arguments are required: x" rfl
  exact ⟨h.1, h.2.1, h.2.2.1 ["a", "b", "c"] (by decide),
    h.2.2.2.2 "x" "c" ["a", "b"] [] [] (by decide)⟩

/-- Folding a run of pairwise-distinct, non-empty lines into an empty
history of capacity `K` keeps exactly the most recent `K`, newest first. -/
theorem pushHistory_foldl (K : Nat) (ls : List String) :
    ls.Nodup → (∀ x ∈ ls, x ≠ "") →
    List.foldl (pushHistory K) [] ls = ls.reverse.take K := by
  induction ls using List.reverseRecOn with
  | nil => intro _ _; simp
  | append_singleton ls x ih =>
    intro hnd hne
    obtain ⟨hnd', -, hdisj⟩ := List.nodup_append.mp hnd
    have hxl : x ∉ ls := fun hx => hdisj hx (by simp)
    have hx : x ≠ "" := hne x (by simp)
    have hne' : ∀ y ∈ ls, y ≠ "" := fun y hy => hne y (by simp [hy])
    rw [List.foldl_append, List.foldl_cons, List.foldl_nil, ih hnd' hne',
      List.reverse_append, List.reverse_singleton, List.singleton_append]
    have hcond : (ls.reverse.take K).head? ≠ some x := by
      cases hkr : ls.reverse.take K with
      | nil => simp
      | cons y ys =>
        simp only [List.head?_cons, ne_eq, Option.some.injEq]
        intro hyx
        have hy : y ∈ ls.reverse.take K := by
          rw [hkr]; exact List.mem_cons_self y ys
        have hmem : y ∈ ls.reverse := List.take_subset _ _ hy
        rw [List.mem_reverse] at hmem
        exact hxl (hyx ▸ hmem)
    unfold pushHistory
    rw [if_pos ⟨hx, hcond⟩]
    cases K with
    | zero => simp
    | succ k =>
      simp [List.take_succ_cons, List.take_take, Nat.min_eq_left (Nat.le_succ k)]

/-- C6: submitting the same non-empty line twice in a row leaves the
history as after the first submit (the second push is a no-op, so from an
empty ring the result is exactly one copy); pushing an empty line appends
nothing; and pushing `N` pairwise-distinct non-empty lines into a ring
of capacity `K < N` retains exactly the `K` most recently pushed lines,
newest first (the oldest are evicted first). -/
theorem c6_history_ring (K : Nat) (hist : List String) (l : String) (ls : List String) :
    (l ≠ "" → pushHistory K (pushHistory K hist l) l = pushHistory K hist l) ∧
    (l ≠ "" → 1 ≤ K → pushHistory K (pushHistory K [] l) l = [l]) ∧
    (pushHistory K hist "" = hist) ∧
    (ls.Nodup → (∀ x ∈ ls, x ≠ "") → K < ls.length →
      List.foldl (pushHistory K) [] ls = ls.reverse.take K) := by
  refine ⟨?_, ?_, ?_, fun hnd hne _ => pushHistory_foldl K ls hnd hne⟩
  · intro hl
    by_cases hc : hist.head? = some l
    · have hcond : ¬ (l ≠ "" ∧ hist.head? ≠ some l) := fun h => h.2 hc
      simp only [pushHistory, if_neg hcond]
    · cases K with
      | zero => simp [pushHistory, hl, hc]
      | succ k =>
        have h1 : pushHistory (k + 1) hist l = (l :: hist).take (k + 1) := by
          simp [pushHistory, hl, hc]
        rw [h1]
        have h2 : ((l :: hist).take (k + 1)).head? = some l := by
          simp [List.take_succ_cons]
        simp [pushHistory, h2]
  · intro hl hK
    cases K with
    | zero => omega
    | succ k =>
      have h1 : pushHistory (k + 1) [] l = [l] := by simp [pushHistory, hl]
      rw [h1]
      simp [pushHistory]
  · simp [pushHistory]

/-- C6 witness: with capacity 2, pushing `a` twice from empty leaves the
single entry `a`; pushing an empty line changes nothing; pushing the
three distinct lines `a`, `b`, `c` retains exactly `c` then `b`. -/
theorem c6_witness :
    pushHistory 2 (pushHistory 2 [] "a") "a" = ["a"] ∧
    pushHistory 2 ["x"] "" = ["x"] ∧
    List.foldl (pushHistory 2) [] ["a", "b", "c"] = ["c", "b"] := by
  have h := c6_history_ring 2 [] "a" ["a", "b", "c"]
  exact ⟨h.2.1 (by decide) (by decide), (c6_history_ring 2 ["x"] "" []).2.2.1,
    h.2.2.2 (by decide) (by decide) (by decide)⟩

/-- C7 (amended): for a terminal width `W > 0` the renderer always writes
`W - count % W` padding spaces after a message of rendered character
count `count`, which is strictly positive and at most `W`; the total
written, `count + padding`, is a full multiple of `W`; a message whose
count is an exact multiple of `W` receives `W` padding characters
(a full extra blank row), not zero; and the computed row span of a
message of count `2 × W` is 2. -/
theorem c7_padding_and_rows (W count : Nat) (hW : 0 < W) :
    0 < padCount W count ∧
    padCount W count ≤ W ∧
    (count + padCount W count) % W = 0 ∧
    (count % W = 0 → padCount W count = W) ∧
    countLines W (2 * W) = 2 := by
  have hr : count % W < W := Nat.mod_lt _ hW
  have hdm := Nat.div_add_mod count W
  refine ⟨?_, ?_, ?_, ?_, ?_⟩
  · unfold padCount; omega
  · unfold padCount; omega
  · unfold padCount
    have key : count + (W - count % W) = W * (count / W) + W := by omega
    rw [key, Nat.mul_add_mod, Nat.mod_self]
  · intro h0; unfold padCount; omega
  · unfold countLines
    rw [show 2 * W + W - 1 = W * 2 + (W - 1) by omega, Nat.mul_add_div hW,
      Nat.div_eq_of_lt (by omega)]
    decide

/-- C7 counterexample: a message of rendered count 16 at width 8 (an
exact multiple, spanning 2 rows) receives 8 padding spaces, not zero. -/
theorem c7_counterexample : padCount 8 16 ≠ 0 := by decide

/-- C7 witness: the width-8 instance of the amended statement, evaluated. -/
theorem c7_witness :
    padCount 8 16 = 8 ∧ (16 + padCount 8 16) % 8 = 0 ∧ countLines 8 (2 * 8) = 2 := by
  have h := c7_padding_and_rows 8 16 (by decide)
  exact ⟨by decide, h.2.2.1, h.2.2.2.2⟩

/-- C8 (amended): with commands `help` and `exit` registered and `help`'s
parameter backed by a dynamic choice provider returning the current
command names, pressing Tab with the edit buffer containing `"help e"`
(which tokenizes to `["help", "e"]`) replaces the buffer content with
`"help exit"` — the unique matching choice `exit` substituted for the
partial token and the line re-joined, with no trailing space — and places
the cursor at the end (index 9); nothing is printed. -/
theorem c8_tab_scenario :
    shlexSplit "help e" = some ["help", "e"] ∧
    onTab scenarioTable { keys := "help e".data, cursor := 6 } ["help", "e"] =
      ({ keys := "help exit".data, cursor := 9 }, none) := by
  constructor
  · decide
  · decide

/-- C8 counterexample: at the claim's concrete input the new buffer is not
`"help exit "`; the trailing space is produced only by command-name
completion, not by the argument-completion path taken here. -/
theorem c8_counterexample :
    (onTab scenarioTable { keys := "help e".data, cursor := 6 } ["help", "e"]).1.keys ≠
      "help exit ".data := by
  decide

/-- C9: when a line whose tokenization succeeds is submitted and its
`shlex.join`-normalized form is non-empty and differs from the newest
history entry, the entry stored by `on_enter` is exactly that
normalization (tokens re-joined with single spaces), not the raw typed
text; in particular `"foo  bar"` (two spaces) tokenizes to
`["foo", "bar"]`, is stored as `"foo bar"`, and the stored form differs
from the typed text. -/
theorem c9_history_normalization (K : Nat) (st : AppState) (args : List String)
    (h1 : shlexSplit (String.mk st.command_keys) = some args)
    (h2 : shlexJoin args ≠ "")
    (h3 : st.command_history.head? ≠ some (shlexJoin args))
    (h4 : 1 ≤ K) :
    (onEnter K st).command_history.head? = some (shlexJoin args) ∧
    shlexSplit "foo  bar" = some ["foo", "bar"] ∧
    shlexJoin ["foo", "bar"] = "foo bar" ∧
    ("foo bar" : String) ≠ "foo  bar" := by
  refine ⟨?_, by decide, by decide, by decide⟩
  cases K with
  | zero => omega
  | succ k =>
    unfold onEnter
    rw [h1]
    simp [pushHistory, h2, h3, List.take_succ_cons]

/-- C9 witness: submitting the buffer `"foo  bar"` into an empty history
of capacity 4 stores the normalized entry `"foo bar"`. -/
theorem c9_witness :
    (onEnter 4 { command_keys := "foo  bar".data, cursor_index := 8,
                 command_history := [], command_index := 0 }).command_history.head? =
      some "foo bar" := by
  exact (c9_history_normalization 4
    { command_keys := "foo  bar".data, cursor_index := 8,
      command_history := [], command_index := 0 } ["foo", "bar"]
    (by decide) (by decide) (by decide) (by decide)).1

/-- Every string that passes through `construct_string` is free of tabs
and newlines: the translation table maps both to a single space. -/
theorem constructString_clean (s : String) : noTabNewline (constructString s) = true := by
  have hdata : (constructString s).data = s.data.map translationTable := rfl
  simp only [noTabNewline, hdata, List.all_eq_true]
  intro c hc
  rw [List.mem_map] at hc
  obtain ⟨a, -, rfl⟩ := hc
  by_cases h : a = '\t' ∨ a = '\n'
  · have he : translationTable a = ' ' := by simp [translationTable, h]
    rw [he]; decide
  · push_neg at h
    have he : translationTable a = a := by simp [translationTable, h.1, h.2]
    rw [he]
    simp only [Bool.and_eq_true, bne_iff_ne, ne_eq]
    exact ⟨h.1, h.2⟩

/-- Both branches of `construct_tuple` translate their text component. -/
theorem constructTuple_clean (p : PartInput) : noTabNewline (constructTuple p).1 = true := by
  cases p <;> exact constructString_clean _

/-- Every segment the `print` assembly loop produces is a constructed
tuple, hence tab/newline-free. -/
theorem interleaveParts_clean (parts : List PartInput) (sep : PartInput)
    (seg : String × Option String) :
    seg ∈ interleaveParts (constructTuple sep) parts → noTabNewline seg.1 = true := by
  induction parts with
  | nil => intro h; simp [interleaveParts] at h
  | cons p rest ih =>
    intro h
    cases rest with
    | nil =>
      simp only [interleaveParts, List.mem_singleton] at h
      rw [h]; exact constructTuple_clean p
    | cons q rs =>
      simp only [interleaveParts, List.mem_cons] at h
      rcases h with rfl | rfl | h
      · exact constructTuple_clean p
      · exact constructTuple_clean sep
      · exact ih (by simpa [interleaveParts] using h)

/-- C10: every text part stored in the scrollback log by a `print` or
`error` call has each tab and newline replaced by a single space before
storage — every segment of an assembled message (bodies, the separator
copies and the end string alike) is tab/newline-free, and so is the text
of any `construct_tuple`d value such as the prompt or the error prefix
set through their setters. -/
theorem c10_no_tab_newline_stored (parts : List PartInput) (sep e x : PartInput)
    (seg : String × Option String) (h : seg ∈ assembleMessage parts sep e) :
    noTabNewline seg.1 = true ∧ noTabNewline (constructTuple x).1 = true := by
  refine ⟨?_, constructTuple_clean x⟩
  unfold assembleMessage at h
  rw [List.mem_append] at h
  rcases h with h | h
  · exact interleaveParts_clean parts sep seg h
  · rw [List.mem_singleton] at h
    rw [h]
    exact constructTuple_clean e

/-- C10 witness: printing the part `"a` tab `b"` with separator `" "` and end
`""` stores the segment `("a b", none)`, which is tab/newline-free, as is
the constructed error-prefix-style tuple `("p q", some "attr")`. -/
theorem c10_witness :
    ("a b", (none : Option String)) ∈
      assembleMessage [PartInput.plain "a\tb"] (.plain " ") (.plain "") ∧
    noTabNewline "a b" = true ∧
    noTabNewline (constructTuple (.styled "p\nq" "attr")).1 = true := by
  have h := c10_no_tab_newline_stored [PartInput.plain "a\tb"] (.plain " ") (.plain "")
    (.styled "p\nq" "attr") ("a b", none) (by decide)
  exact ⟨by decide, h.1, h.2⟩

end Tui
